import Mathlib

/-!
A shallow embedding of mem.c, the block-based memory allocator.

Modelling choices, all read off the C source:

The managed region is modelled as a total map from byte addresses to the
4-byte word stored at that address, of type Int to Int.  The region base is
address 0, every address that the code ever dereferences is a multiple of 4,
and reads of words the code never wrote return 0, matching the zero-filled
mapping obtained from /dev/zero.  The C type int is modelled as the unbounded
Int; none of the runs considered here come anywhere near 32-bit overflow.

Pointer arithmetic: the C code manipulates pointers of type blk_hdr star,
where blk_hdr is a struct holding a single int, so adding n to such a pointer
advances the address by 4 * n bytes.  The source mixes this scaled arithmetic
with byte arithmetic through void star and char star casts; the embedding
reproduces each site exactly as written, byte arithmetic for the casts in
Mem_Init and Mem_Dump, scaled arithmetic for the blk_hdr star sums in
Mem_Alloc.

Bit operations: the code masks size_status with 1, 2 and 3.  On a
twos-complement int, the test st AND 1 equals 1 is st % 2 = 1, st AND 3 equals 3
is st % 4 = 3, and st AND 2 equals 2 is 2 <= st % 4, where % is the
Euclidean (nonnegative) remainder, which Lean writes as Int.emod.  C integer
division and remainder truncate toward zero, which is Int.tdiv and Int.tmod.

Loops are modelled with explicit fuel; a result of none means the run did
not finish within the given fuel, and a statement proved for every fuel
value states genuine divergence.

Mem_Dump only prints; the embedding keeps its traversal (whose termination
the enclosing call inherits) and drops the output.  Mem_Free in the source
consists entirely of commented-out code followed by return 0, and is
embedded accordingly.
-/

namespace MemSpec

/-- Write the 4-byte word at address i. -/
def setWord (m : Int → Int) (i v : Int) : Int → Int :=
  fun j => if j = i then v else m j

/-- The zero-filled fresh mapping delivered by mmap over /dev/zero. -/
def zeroMem : Int → Int := fun _ => 0

theorem setWord_at (m : Int → Int) (i v : Int) : setWord m i v i = v := by
  simp [setWord]

theorem setWord_ne (m : Int → Int) (i v j : Int) (h : j ≠ i) :
    setWord m i v j = m j := by
  simp [setWord, h]

/-- The size rounding at the top of Mem_Alloc: size += 4, then round up to a
multiple of 8 using truncating C division. -/
def cRound (size : Int) : Int :=
  if Int.tmod (size + 4) 8 ≠ 0 then (Int.tdiv (size + 4) 8 + 1) * 8
  else size + 4

/-- The traversal of Mem_Dump, from mem.c lines 420-453: walk headers using
byte arithmetic (char star cast), strip the two status bits, stop at the end
mark whose size_status is 1.  Output is dropped; the value records only
whether the walk terminates within the fuel. -/
def Mem_Dump : (Int → Int) → Nat → Int → Option Unit
  | _, 0, _ => none
  | m, fuel + 1, cur =>
    if m cur = 1 then some ()
    else Mem_Dump m fuel (cur + (m cur - m cur % 4))

/-- The main loop of Mem_Alloc, mem.c lines 96-203, translated branch by
branch.  sz is the rounded request, first is first_blk, and the three Int
state components are ptr, minSize and minBlock.  Advancing ptr by a block
size uses blk_hdr star arithmetic, hence the factor 4.  The code after the
loop (the split of the remembered best block, lines 178-200) runs when the
end mark is reached with minSize different from -1. -/
def allocLoop (sz first : Int) :
    Nat → (Int → Int) → Int → Int → Int → Option (Option Int × (Int → Int))
  | 0, _, _, _, _ => none
  | fuel + 1, m, ptr, minSize, minBlock =>
    if m ptr = 1 then
      (if minSize ≠ -1 then
        some (some (minBlock + 16),
          setWord
            (setWord
              (setWord m minBlock
                (if 2 ≤ m minBlock % 4 then sz + 3 else sz + 1))
              (minBlock + 4 * sz) (minSize - sz + 2))
            (minBlock + 4 * minSize - 16) (minSize - sz))
      else some (none, m))
    else if m ptr % 2 = 1 then
      (if m ptr % 4 = 3 then
        allocLoop sz first fuel m (ptr + 4 * (m ptr - 3)) minSize minBlock
      else
        match Mem_Dump m fuel first with
        | none => none
        | some _ =>
          allocLoop sz first fuel m (ptr + 4 * (m ptr - 1)) minSize minBlock)
    else if m ptr > sz + 2 then
      (if minSize = -1 then
        allocLoop sz first fuel m ptr (m ptr - 2) ptr
      else if 2 ≤ m ptr % 4 then
        (if m ptr - 2 < minSize then
          allocLoop sz first fuel m ptr (m ptr - 2) ptr
        else allocLoop sz first fuel m ptr minSize minBlock)
      else
        (if m ptr < minSize then
          allocLoop sz first fuel m ptr (m ptr) ptr
        else allocLoop sz first fuel m ptr minSize minBlock))
    else if m ptr = sz ∨ m ptr - 2 = sz then
      some (some (ptr + 16), setWord m ptr (m ptr + 1))
    else
      (if 2 ≤ m ptr % 4 then
        allocLoop sz first fuel m (ptr + 4 * (m ptr - 2)) minSize minBlock
      else allocLoop sz first fuel m (ptr + 4 * (m ptr)) minSize minBlock)

/-- Mem_Alloc, mem.c lines 72-204.  The only sanity check is size == 0. -/
def Mem_Alloc (fuel : Nat) (m : Int → Int) (first : Int) (size : Int) :
    Option (Option Int × (Int → Int)) :=
  if size = 0 then some (none, m)
  else allocLoop (cRound size) first fuel m first (-1) first

/-- Mem_Free, mem.c lines 217-310.  Every statement of the body is commented
out in the source; the function unconditionally returns 0 and performs no
memory access at all. -/
def Mem_Free (m : Int → Int) (_ptr : Option Int) : Int × (Int → Int) :=
  (0, m)

/-- Total bytes obtained from mmap: the request plus the padding of mem.c
lines 342-343, computed with the truncating C remainder. -/
def initRegion (pagesize sizeOfRegion : Int) : Int :=
  sizeOfRegion + Int.tmod (pagesize - Int.tmod sizeOfRegion pagesize) pagesize

/-- The alloc_size variable after the 8-byte reservation of mem.c line 364. -/
def initA (pagesize sizeOfRegion : Int) : Int :=
  initRegion pagesize sizeOfRegion - 8

/-- The region contents Mem_Init leaves behind, mem.c lines 369-383: header
at byte 4 written twice (size, then plus 2 for prev-busy), end mark at byte
4 + alloc_size, footer at byte alloc_size. -/
def initMem (pagesize sizeOfRegion : Int) : Int → Int :=
  setWord
    (setWord
      (setWord (setWord zeroMem 4 (initA pagesize sizeOfRegion)) 4
        (setWord zeroMem 4 (initA pagesize sizeOfRegion) 4 + 2))
      (4 + initA pagesize sizeOfRegion) 1)
    (4 + initA pagesize sizeOfRegion - 4) (initA pagesize sizeOfRegion)

/-- Mem_Init, mem.c lines 318-386.  The OS collaborators are parameters:
pagesize for getpagesize, openOk for the open of /dev/zero, mmapOk for the
mmap call; allocatedOnce is the static flag.  The result is the return
value, the new flag, and, on success, the region contents, the first_blk
address and the rounded region size. -/
def Mem_Init (pagesize : Int) (openOk mmapOk allocatedOnce : Bool)
    (sizeOfRegion : Int) : Int × Bool × Option ((Int → Int) × Int × Int) :=
  if allocatedOnce then (-1, allocatedOnce, none)
  else if sizeOfRegion ≤ 0 then (-1, allocatedOnce, none)
  else if !openOk then (-1, allocatedOnce, none)
  else if !mmapOk then (-1, false, none)
  else (0, true, some (initMem pagesize sizeOfRegion, 4,
    initRegion pagesize sizeOfRegion))

/-- The block chain as Mem_Dump reads it: the list of header positions and
sizes obtained by walking from a start address, stripping status bits,
until the end mark.  none means the walk does not stop within the fuel. -/
def chainBlocks (m : Int → Int) : Nat → Int → Option (List (Int × Int))
  | 0, _ => none
  | fuel + 1, cur =>
    if m cur = 1 then some []
    else (chainBlocks m fuel (cur + (m cur - m cur % 4))).map
      (fun l => (cur, m cur - m cur % 4) :: l)

/-- Sum of the sizes of a parsed chain. -/
def chainSizeSum (l : List (Int × Int)) : Int := (l.map Prod.snd).sum

/-- The parsed chain is contiguous starting at a given address: each block
begins exactly where the previous one ends. -/
def chainContig : Int → List (Int × Int) → Prop
  | _, [] => True
  | c, b :: rest => b.1 = c ∧ chainContig (b.1 + b.2) rest

/-- The state Mem_Init(4096) produces with page size 4096. -/
def mInit4096 : Int → Int := initMem 4096 4096

/-- The state after the one terminating allocation on the fresh 4096-byte
heap: the exact-fit branch adds 1 to the first header. -/
def mAfterAlloc4096 : Int → Int := setWord mInit4096 4 (mInit4096 4 + 1)

/-- A heap with free blocks of sizes 32, 64 and 40 separated by busy
24-byte blocks, the configuration of the best-fit test of the spec. -/
def m3heap : Int → Int := fun a =>
  if a = 4 then 34 else if a = 32 then 32
  else if a = 36 then 25
  else if a = 60 then 66 else if a = 120 then 64
  else if a = 124 then 25
  else if a = 148 then 42 else if a = 184 then 40
  else if a = 188 then 1 else 0

/-- A heap whose single block is a free 64-byte block. -/
def m5heap : Int → Int := fun a =>
  if a = 4 then 66 else if a = 64 then 64 else if a = 68 then 1 else 0

/-- A heap whose single block is a free 8-byte block (header plus footer,
empty payload). -/
def m9heap : Int → Int := fun a =>
  if a = 4 then 10 else if a = 8 then 8 else if a = 12 then 1 else 0

/-- Claim C1: the source requires Mem_Free to fail with -1 on a null,
misaligned or already-free pointer, but the implementation returns the
success value 0 even for the null pointer; this theorem evaluates the code
at that failing input. -/
theorem Mem_Free_returns_success_on_null :
    Mem_Free zeroMem none = (0, zeroMem) ∧ (0 : Int) ≠ -1 :=
  ⟨rfl, by decide⟩

/-- Claim C8: Mem_Free is inert: for every argument, null included, it
returns 0 and leaves every word of the region unchanged. -/
theorem Mem_Free_inert :
    ∀ (m : Int → Int) (p : Option Int), Mem_Free m p = (0, m) :=
  fun _ _ => rfl

/-- Claim C7: Mem_Init returns -1 when the flag records a previous
successful call, and returns -1 when the requested size is not positive. -/
theorem Mem_Init_rejects_nonpositive_and_repeat :
    (∀ (pagesize : Int) (openOk mmapOk : Bool) (s : Int),
        (Mem_Init pagesize openOk mmapOk true s).1 = -1)
    ∧ (∀ (pagesize : Int) (openOk mmapOk : Bool) (s : Int), s ≤ 0 →
        (Mem_Init pagesize openOk mmapOk false s).1 = -1) := by
  constructor
  · intro pagesize openOk mmapOk s
    rfl
  · intro pagesize openOk mmapOk s h
    simp [Mem_Init, h]

/-- Witness for C7 at concrete inputs. -/
theorem Mem_Init_rejects_nonpositive_and_repeat_witness :
    (Mem_Init 4096 true true true 64).1 = -1
    ∧ (Mem_Init 4096 true true false 0).1 = -1 :=
  ⟨Mem_Init_rejects_nonpositive_and_repeat.1 4096 true true 64,
   Mem_Init_rejects_nonpositive_and_repeat.2 4096 true true 0 (by decide)⟩

/-- Claim C10: a failed Mem_Init leaves the once-flag false, and from the
false flag a later call with positive size and cooperating OS succeeds. -/
theorem Mem_Init_flag_armed_only_on_success :
    (∀ (pagesize : Int) (openOk mmapOk : Bool) (s : Int),
        (Mem_Init pagesize openOk mmapOk false s).1 = -1 →
        (Mem_Init pagesize openOk mmapOk false s).2.1 = false)
    ∧ (∀ (pagesize s : Int), 0 < s →
        (Mem_Init pagesize true true false s).1 = 0 ∧
        (Mem_Init pagesize true true false s).2.1 = true) := by
  constructor
  · intro pagesize openOk mmapOk s
    by_cases hs : s ≤ 0
    · simp [Mem_Init, hs]
    · cases openOk <;> cases mmapOk <;> simp [Mem_Init, hs]
  · intro pagesize s hs
    have h : ¬ (s ≤ 0) := by omega
    simp [Mem_Init, h]

/-- Witness for C10: a failed call (mmap refused) leaves the flag false,
and a fresh call then succeeds. -/
theorem Mem_Init_flag_armed_only_on_success_witness :
    (Mem_Init 4096 true false false 64).2.1 = false
    ∧ ((Mem_Init 4096 true true false 64).1 = 0
       ∧ (Mem_Init 4096 true true false 64).2.1 = true) :=
  ⟨Mem_Init_flag_armed_only_on_success.1 4096 true false 64 (by rfl),
   Mem_Init_flag_armed_only_on_success.2 4096 64 (by decide)⟩

/-- Claim C9: the sanity check of Mem_Alloc rejects only size = 0; any
other request, negative ones included, proceeds to the search with the
needed size computed as size + 4 rounded up to a multiple of 8, and a
negative request can return a non-null pointer: on a heap holding a free
8-byte block, Mem_Alloc(-5) rounds to 8, exact-fits and returns a payload
pointer. -/
theorem Mem_Alloc_negative_passes_sanity :
    (∀ (s : Int), s ≠ 0 → ∀ (fuel : Nat) (m : Int → Int) (first : Int),
        Mem_Alloc fuel m first s = allocLoop (cRound s) first fuel m first (-1) first)
    ∧ cRound (-4) = 0 ∧ cRound (-5) = 8
    ∧ Mem_Alloc 3 m9heap 4 (-5) = some (some 20, setWord m9heap 4 11) := by
  refine ⟨?_, by decide, by decide, by rfl⟩
  intro s hs fuel m first
  simp [Mem_Alloc, hs]

/-- Witness for C9: the request -4 of the claim passes the sanity check and
enters the search. -/
theorem Mem_Alloc_negative_passes_sanity_witness :
    Mem_Alloc 3 m9heap 4 (-4) = allocLoop (cRound (-4)) 4 3 m9heap 4 (-1) 4 :=
  Mem_Alloc_negative_passes_sanity.1 (-4) (by decide) 3 m9heap 4

theorem chainBlocks_succ (m : Int → Int) (f : Nat) (cur : Int) :
    chainBlocks m (f + 1) cur =
      if m cur = 1 then some []
      else (chainBlocks m f (cur + (m cur - m cur % 4))).map
        (fun l => (cur, m cur - m cur % 4) :: l) := rfl

theorem allocLoop_succ (sz first : Int) (f : Nat) (m : Int → Int)
    (ptr mS mB : Int) :
    allocLoop sz first (f + 1) m ptr mS mB =
      (if m ptr = 1 then
        (if mS ≠ -1 then
          some (some (mB + 16),
            setWord
              (setWord
                (setWord m mB (if 2 ≤ m mB % 4 then sz + 3 else sz + 1))
                (mB + 4 * sz) (mS - sz + 2))
              (mB + 4 * mS - 16) (mS - sz))
        else some (none, m))
      else if m ptr % 2 = 1 then
        (if m ptr % 4 = 3 then
          allocLoop sz first f m (ptr + 4 * (m ptr - 3)) mS mB
        else
          match Mem_Dump m f first with
          | none => none
          | some _ => allocLoop sz first f m (ptr + 4 * (m ptr - 1)) mS mB)
      else if m ptr > sz + 2 then
        (if mS = -1 then
          allocLoop sz first f m ptr (m ptr - 2) ptr
        else if 2 ≤ m ptr % 4 then
          (if m ptr - 2 < mS then allocLoop sz first f m ptr (m ptr - 2) ptr
          else allocLoop sz first f m ptr mS mB)
        else
          (if m ptr < mS then allocLoop sz first f m ptr (m ptr) ptr
          else allocLoop sz first f m ptr mS mB))
      else if m ptr = sz ∨ m ptr - 2 = sz then
        some (some (ptr + 16), setWord m ptr (m ptr + 1))
      else
        (if 2 ≤ m ptr % 4 then
          allocLoop sz first f m (ptr + 4 * (m ptr - 2)) mS mB
        else allocLoop sz first f m (ptr + 4 * (m ptr)) mS mB)) := rfl

/-- Once the scan meets a free block strictly larger than the rounded
request plus 2, the branch at mem.c lines 117-150 never advances ptr, so
the loop never terminates, whatever the fuel. -/
theorem allocLoop_stuck_candidate (sz first : Int) (m : Int → Int) (ptr : Int)
    (h1 : m ptr ≠ 1) (h2 : m ptr % 2 ≠ 1) (h3 : m ptr > sz + 2) :
    ∀ (fuel : Nat) (mS mB : Int), allocLoop sz first fuel m ptr mS mB = none := by
  intro fuel
  induction fuel with
  | zero => intro mS mB; rfl
  | succ f ih =>
    intro mS mB
    rw [allocLoop_succ, if_neg h1, if_neg h2, if_pos h3]
    split_ifs <;> apply ih

/-- A word holding 0 is read as a free block of size 0 whose previous block
is free, so the advance at mem.c line 172 moves ptr by zero bytes and the
loop never terminates, whatever the fuel. -/
theorem allocLoop_stuck_zero (sz first : Int) (m : Int → Int) (ptr : Int)
    (h0 : m ptr = 0) (h3 : ¬ ((0:Int) > sz + 2)) (h4 : sz ≠ 0) (h5 : sz ≠ -2) :
    ∀ (fuel : Nat) (mS mB : Int), allocLoop sz first fuel m ptr mS mB = none := by
  intro fuel
  induction fuel with
  | zero => intro mS mB; rfl
  | succ f ih =>
    intro mS mB
    rw [allocLoop_succ, h0]
    rw [if_neg (by norm_num), if_neg (by norm_num), if_neg h3,
      if_neg (by omega : ¬ ((0:Int) = sz ∨ 0 - 2 = sz)), if_neg (by norm_num)]
    rw [show ptr + 4 * (0:Int) = ptr by ring]
    exact ih mS mB

/-- One loop step through the branch for a free block that is too small and
whose predecessor is busy, mem.c lines 163-167. -/
theorem allocLoop_step_small_prevbusy (sz first : Int) (f : Nat)
    (m : Int → Int) (ptr mS mB : Int) (h1 : m ptr ≠ 1) (h2 : m ptr % 2 ≠ 1)
    (h3 : ¬ (m ptr > sz + 2)) (h4 : ¬ (m ptr = sz ∨ m ptr - 2 = sz))
    (h5 : 2 ≤ m ptr % 4) :
    allocLoop sz first (f + 1) m ptr mS mB
      = allocLoop sz first f m (ptr + 4 * (m ptr - 2)) mS mB := by
  rw [allocLoop_succ, if_neg h1, if_neg h2, if_neg h3, if_neg h4, if_pos h5]

/-- Claim C3: on the heap with free blocks of sizes 32, 64 and 40 and a
request rounding to a needed size of 40, the scan leaves the first block
with blk_hdr star arithmetic (4 times too far), lands on a zero word inside
a busy block and loops forever: the allocator never selects any block. -/
theorem best_fit_scan_never_selects :
    chainBlocks m3heap 6 4
      = some [(4, 32), (36, 24), (60, 64), (124, 24), (148, 40)]
    ∧ cRound 36 = 40
    ∧ ∀ fuel : Nat, Mem_Alloc fuel m3heap 4 36 = none := by
  refine ⟨by rfl, by decide, ?_⟩
  intro fuel
  cases fuel with
  | zero => rfl
  | succ f =>
    show allocLoop (cRound 36) 4 (f + 1) m3heap 4 (-1) 4 = none
    rw [allocLoop_step_small_prevbusy (cRound 36) 4 f m3heap 4 (-1) 4
      (by decide) (by decide) (by decide) (by decide) (by decide)]
    rw [show (4 : Int) + 4 * (m3heap 4 - 2) = 132 by decide]
    exact allocLoop_stuck_zero (cRound 36) 4 m3heap 132 (by decide) (by decide)
      (by decide) (by decide) f (-1) 4

/-- Claim C5: allocating 16 bytes from a 64-byte free block should split
it, but the best-fit branch records the candidate without ever advancing
ptr, so Mem_Alloc never terminates and no split happens, whatever the
fuel. -/
theorem split_request_diverges :
    chainBlocks m5heap 3 4 = some [(4, 64)]
    ∧ cRound 16 = 24
    ∧ ∀ fuel : Nat, Mem_Alloc fuel m5heap 4 16 = none := by
  refine ⟨by rfl, by decide, ?_⟩
  intro fuel
  show allocLoop (cRound 16) 4 fuel m5heap 4 (-1) 4 = none
  exact allocLoop_stuck_candidate (cRound 16) 4 m5heap 4 (by decide) (by decide)
    (by decide) fuel (-1) 4

/-- A header word whose size field is zero stalls the chain walk. -/
theorem chainBlocks_stuck (m : Int → Int) (cur : Int) (h1 : m cur ≠ 1)
    (h0 : m cur - m cur % 4 = 0) :
    ∀ fuel : Nat, chainBlocks m fuel cur = none := by
  intro fuel
  induction fuel with
  | zero => rfl
  | succ f ih =>
    rw [chainBlocks_succ, if_neg h1, h0]
    rw [show cur + 0 = cur by ring, ih]
    rfl

/-- Setting the low status bit of one even word never changes the parsed
chain: positions and stripped sizes are read identically. -/
theorem chainBlocks_setOdd (m : Int → Int) (p : Int) (hp : m p % 2 = 0) :
    ∀ (fuel : Nat) (cur : Int) (l : List (Int × Int)),
      chainBlocks m fuel cur = some l →
      chainBlocks (setWord m p (m p + 1)) fuel cur = some l := by
  intro fuel
  induction fuel with
  | zero =>
    intro cur l h
    exact absurd h (by rw [show chainBlocks m 0 cur = none from rfl]; simp)
  | succ f ih =>
    intro cur l h
    rw [chainBlocks_succ] at h ⊢
    by_cases hc : cur = p
    · subst hc
      have h1 : m cur ≠ 1 := by omega
      rw [if_neg h1] at h
      have hsz : m cur - m cur % 4 ≠ 0 := by
        intro e
        rw [e, show cur + 0 = cur by ring, chainBlocks_stuck m cur h1 e f] at h
        exact absurd h (by simp)
      rw [setWord_at]
      have h1' : m cur + 1 ≠ 1 := by omega
      rw [if_neg h1']
      have hsz4 : m cur + 1 - (m cur + 1) % 4 = m cur - m cur % 4 := by omega
      rw [hsz4]
      cases hcb : chainBlocks m f (cur + (m cur - m cur % 4)) with
      | none => rw [hcb] at h; exact absurd h (by simp)
      | some l2 =>
        rw [hcb] at h
        rw [ih _ _ hcb]
        exact h
    · rw [setWord_ne m p (m p + 1) cur hc]
      by_cases h1 : m cur = 1
      · rw [if_pos h1] at h ⊢
        exact h
      · rw [if_neg h1] at h ⊢
        cases hcb : chainBlocks m f (cur + (m cur - m cur % 4)) with
        | none => rw [hcb] at h; exact absurd h (by simp)
        | some l2 =>
          rw [hcb] at h
          rw [ih _ _ hcb]
          exact h

/-- When the loop starts with minSize = -1, a terminating run either leaves
memory untouched (exit at the end mark, since the best-fit branch, once
taken, never terminates) or performs the single exact-fit write that adds 1
to one even word, mem.c line 155. -/
theorem allocLoop_writes_minNone (sz first : Int) :
    ∀ (fuel : Nat) (m : Int → Int) (ptr mB : Int) (r : Option Int)
      (m' : Int → Int),
      allocLoop sz first fuel m ptr (-1) mB = some (r, m') →
      m' = m ∨ ∃ p : Int, m p % 2 = 0 ∧ m' = setWord m p (m p + 1) := by
  intro fuel
  induction fuel with
  | zero =>
    intro m ptr mB r m' h
    exact absurd h (by rw [show allocLoop sz first 0 m ptr (-1) mB = none from rfl]; simp)
  | succ f ih =>
    intro m ptr mB r m' h
    rw [allocLoop_succ] at h
    by_cases h1 : m ptr = 1
    · rw [if_pos h1, if_neg (show ¬ ((-1:Int) ≠ -1) by simp)] at h
      left
      have h2 : (some (none, m) : Option (Option Int × (Int → Int))) = some (r, m') := h
      simp only [Option.some.injEq, Prod.mk.injEq] at h2
      exact h2.2.symm
    · rw [if_neg h1] at h
      by_cases h2 : m ptr % 2 = 1
      · rw [if_pos h2] at h
        by_cases h3 : m ptr % 4 = 3
        · rw [if_pos h3] at h
          exact ih _ _ _ _ _ h
        · rw [if_neg h3] at h
          cases hd : Mem_Dump m f first with
          | none => rw [hd] at h; exact absurd h (by simp)
          | some u =>
            rw [hd] at h
            exact ih _ _ _ _ _ h
      · rw [if_neg h2] at h
        by_cases h3 : m ptr > sz + 2
        · rw [if_pos h3, if_pos rfl,
            allocLoop_stuck_candidate sz first m ptr h1 h2 h3 f _ _] at h
          exact absurd h (by simp)
        · rw [if_neg h3] at h
          by_cases h4 : m ptr = sz ∨ m ptr - 2 = sz
          · rw [if_pos h4] at h
            right
            refine ⟨ptr, by omega, ?_⟩
            have h5 : (some (some (ptr + 16), setWord m ptr (m ptr + 1)) :
                Option (Option Int × (Int → Int))) = some (r, m') := h
            simp only [Option.some.injEq, Prod.mk.injEq] at h5
            exact h5.2.symm
          · rw [if_neg h4] at h
            by_cases h5 : 2 ≤ m ptr % 4
            · rw [if_pos h5] at h
              exact ih _ _ _ _ _ h
            · rw [if_neg h5] at h
              exact ih _ _ _ _ _ h

/-- Any terminating Mem_Alloc run leaves the parsed block chain exactly as
it was: block positions and sizes are preserved. -/
theorem Mem_Alloc_chain_frame (fuel f2 : Nat) (m : Int → Int)
    (first sz : Int) (r : Option Int) (m' : Int → Int) (l : List (Int × Int))
    (hc : chainBlocks m f2 first = some l)
    (ha : Mem_Alloc fuel m first sz = some (r, m')) :
    chainBlocks m' f2 first = some l := by
  by_cases hz : sz = 0
  · subst hz
    unfold Mem_Alloc at ha
    rw [if_pos rfl] at ha
    simp only [Option.some.injEq, Prod.mk.injEq] at ha
    rw [← ha.2]
    exact hc
  · rw [show Mem_Alloc fuel m first sz
        = allocLoop (cRound sz) first fuel m first (-1) first
      from by simp [Mem_Alloc, hz]] at ha
    rcases allocLoop_writes_minNone (cRound sz) first fuel m first first r m' ha
      with he | ⟨p, hev, he⟩
    · rw [he]
      exact hc
    · rw [he]
      exact chainBlocks_setOdd m p hev f2 first l hc

theorem initMem_at_head (ps s : Int) (h8 : 8 ≤ initA ps s) :
    initMem ps s 4 = initA ps s + 2 := by
  unfold initMem
  rw [setWord_ne _ _ _ _ (by omega), setWord_ne _ _ _ _ (by omega),
    setWord_at, setWord_at]

theorem initMem_at_end (ps s : Int) :
    initMem ps s (4 + initA ps s) = 1 := by
  unfold initMem
  rw [setWord_ne _ _ _ _ (by omega), setWord_at]

theorem initRegion_emod (ps s : Int) (hs : 0 < s) (hps : 0 < ps) :
    initRegion ps s = s + (ps - s % ps) % ps := by
  have h1 := Int.emod_nonneg s (by omega : ps ≠ 0)
  have h2 := Int.emod_lt_of_pos s hps
  have hs0 : (0:Int) ≤ s := by omega
  have hps0 : (0:Int) ≤ ps := by omega
  have hin : Int.tmod s ps = s % ps := Int.tmod_eq_emod hs0 hps0
  have h5 : (0:Int) ≤ ps - s % ps := by omega
  have hout : Int.tmod (ps - s % ps) ps = (ps - s % ps) % ps :=
    Int.tmod_eq_emod h5 hps0
  unfold initRegion
  rw [hin, hout]

/-- The mmap size is the request rounded up to a multiple of the page
size. -/
theorem pagesize_dvd_initRegion (ps s : Int) (hs : 0 < s) (hps : 0 < ps) :
    ps ∣ initRegion ps s := by
  rw [initRegion_emod ps s hs hps]
  have h1 := Int.emod_nonneg s (by omega : ps ≠ 0)
  have h2 := Int.emod_lt_of_pos s hps
  have h3 : (ps - s % ps) % ps = (ps - s % ps) - ps * ((ps - s % ps) / ps) :=
    Int.emod_def (ps - s % ps) ps
  have h4 := Int.ediv_add_emod s ps
  refine ⟨s / ps + 1 - (ps - s % ps) / ps, ?_⟩
  linear_combination h3 - h4

theorem initRegion_lb (ps s : Int) (hs : 0 < s) (hps : 0 < ps) :
    s ≤ initRegion ps s := by
  rw [initRegion_emod ps s hs hps]
  have := Int.emod_nonneg (ps - s % ps) (by omega : ps ≠ 0)
  omega

/-- Claim C6, amended: a successful Mem_Init yields a chain of exactly one
free block starting at byte 4 whose size is the rounded region size minus
8, so the sum of all block sizes plus the zero-size end mark is the rounded
size minus 8, not the rounded size itself (4 bytes of alignment padding and
the 4-byte end-mark header make up the difference); the chain is contiguous;
every terminating Mem_Alloc preserves the parsed chain exactly, Mem_Free
never touches memory, and a repeated Mem_Init changes nothing. -/
theorem chain_invariant_amended :
    (∀ (pagesize s : Int), 0 < s → 8 ∣ pagesize → 16 ≤ pagesize →
        Mem_Init pagesize true true false s
          = (0, true, some (initMem pagesize s, 4, initRegion pagesize s))
        ∧ pagesize ∣ initRegion pagesize s
        ∧ chainBlocks (initMem pagesize s) 2 4
            = some [(4, initRegion pagesize s - 8)]
        ∧ chainContig 4 [(4, initRegion pagesize s - 8)]
        ∧ chainSizeSum [(4, initRegion pagesize s - 8)] + 0
            = initRegion pagesize s - 8)
    ∧ (∀ (fuel f2 : Nat) (m : Int → Int) (first sz : Int) (r : Option Int)
        (m' : Int → Int) (l : List (Int × Int)),
        chainBlocks m f2 first = some l →
        Mem_Alloc fuel m first sz = some (r, m') →
        chainBlocks m' f2 first = some l)
    ∧ (∀ (m : Int → Int) (p : Option Int), (Mem_Free m p).2 = m)
    ∧ (∀ (pagesize : Int) (o k : Bool) (s : Int),
        Mem_Init pagesize o k true s = (-1, true, none)) := by
  refine ⟨?_, Mem_Alloc_chain_frame, fun m p => rfl, fun ps o k s => rfl⟩
  intro ps s hs h8 h16
  have hps : (0:Int) < ps := by omega
  have hdvd := pagesize_dvd_initRegion ps s hs hps
  have hlb := initRegion_lb ps s hs hps
  have hRpos : 0 < initRegion ps s := by omega
  have hpsR : ps ≤ initRegion ps s := Int.le_of_dvd hRpos hdvd
  have h8R : (8:Int) ∣ initRegion ps s := dvd_trans h8 hdvd
  have hA8 : 8 ≤ initA ps s := by
    unfold initA
    omega
  have hA_dvd : (8:Int) ∣ initA ps s := by
    unfold initA
    exact dvd_sub h8R (by norm_num)
  have hmi : Mem_Init ps true true false s
      = (0, true, some (initMem ps s, 4, initRegion ps s)) := by
    simp [Mem_Init, show ¬ (s ≤ 0) by omega]
  have hchain : chainBlocks (initMem ps s) 2 4 = some [(4, initA ps s)] := by
    have e1 : chainBlocks (initMem ps s) 2 4
        = if initMem ps s 4 = 1 then some []
          else (chainBlocks (initMem ps s) 1
              (4 + (initMem ps s 4 - initMem ps s 4 % 4))).map
            (fun l => (4, initMem ps s 4 - initMem ps s 4 % 4) :: l) :=
      chainBlocks_succ (initMem ps s) 1 4
    rw [e1, initMem_at_head ps s hA8]
    rw [if_neg (by omega : ¬ (initA ps s + 2 = 1))]
    have hm4 : (initA ps s + 2) % 4 = 2 := by omega
    rw [hm4]
    rw [show initA ps s + 2 - 2 = initA ps s by ring]
    have e2 : chainBlocks (initMem ps s) 1 (4 + initA ps s)
        = if initMem ps s (4 + initA ps s) = 1 then some []
          else (chainBlocks (initMem ps s) 0
              ((4 + initA ps s)
                + (initMem ps s (4 + initA ps s)
                    - initMem ps s (4 + initA ps s) % 4))).map
            (fun l => ((4 + initA ps s),
              initMem ps s (4 + initA ps s)
                - initMem ps s (4 + initA ps s) % 4) :: l) :=
      chainBlocks_succ (initMem ps s) 0 (4 + initA ps s)
    rw [e2, initMem_at_end ps s, if_pos rfl]
    rfl
  refine ⟨hmi, hdvd, ?_, ⟨rfl, trivial⟩, by simp [chainSizeSum]⟩
  rw [show initRegion ps s - 8 = initA ps s from rfl]
  exact hchain

/-- Witness for C6 at page size 4096 and request 4096, together with the
frame conjunct applied to the one terminating allocation. -/
theorem chain_invariant_amended_witness :
    (Mem_Init 4096 true true false 4096
        = (0, true, some (initMem 4096 4096, 4, initRegion 4096 4096))
      ∧ (4096:Int) ∣ initRegion 4096 4096
      ∧ chainBlocks (initMem 4096 4096) 2 4
          = some [(4, initRegion 4096 4096 - 8)]
      ∧ chainContig 4 [(4, initRegion 4096 4096 - 8)]
      ∧ chainSizeSum [(4, initRegion 4096 4096 - 8)] + 0
          = initRegion 4096 4096 - 8)
    ∧ chainBlocks mAfterAlloc4096 2 4 = some [(4, 4088)] :=
  ⟨chain_invariant_amended.1 4096 4096 (by decide) ⟨512, rfl⟩ (by decide),
   chain_invariant_amended.2.1 5 2 mInit4096 4 4081 (some 20) mAfterAlloc4096
     [(4, 4088)] (by rfl) (by rfl)⟩

/-- Counterexample to C6 as stated: after Mem_Init(4096) at page size 4096
the block sizes, end mark included, sum to 4088, not to the rounded region
size 4096. -/
theorem chain_sum_counterexample :
    Mem_Init 4096 true true false 4096 = (0, true, some (mInit4096, 4, 4096))
    ∧ chainBlocks mInit4096 2 4 = some [(4, 4088)]
    ∧ chainSizeSum [(4, 4088)] + 0 ≠ 4096 :=
  ⟨rfl, rfl, by decide⟩

/-- Claim C2: the round-trip fails on the code.  After Mem_Init(4096), the
one allocation that terminates (the exact fit of the whole 4088-byte block)
and the free of its returned pointer, the block is still marked allocated:
Mem_Free returns success without restoring anything, so the chain does not
reduce to one free block. -/
theorem alloc_free_roundtrip_fails :
    Mem_Init 4096 true true false 4096 = (0, true, some (mInit4096, 4, 4096))
    ∧ Mem_Alloc 5 mInit4096 4 4081 = some (some 20, mAfterAlloc4096)
    ∧ Mem_Free mAfterAlloc4096 (some 20) = (0, mAfterAlloc4096)
    ∧ chainBlocks mAfterAlloc4096 2 4 = some [(4, 4088)]
    ∧ mAfterAlloc4096 4 % 2 = 1 :=
  ⟨rfl, rfl, rfl, rfl, by decide⟩

/-- Claim C4: the pointer returned by the terminating allocation is the
header address plus 16 bytes, not plus 4, because of the scaled blk_hdr
star arithmetic at mem.c line 157, and its offset 20 from the region base
is not a multiple of 8. -/
theorem alloc_payload_offset_misaligned :
    Mem_Alloc 5 mInit4096 4 4081 = some (some 20, mAfterAlloc4096)
    ∧ (20:Int) ≠ 4 + 4
    ∧ (20:Int) % 8 ≠ 0 :=
  ⟨rfl, by decide, by decide⟩

end MemSpec
